import Mathlib

/-!
Shallow embedding of the continuous file-synchronization core of the
Amphitheatre CLI (`src/ops/dev.rs`), together with theorems checking the
natural-language specification against it.

Modelling conventions:
* An OS string is a byte sequence (`List Nat`, each byte < 256 where it
  matters); a filesystem path is its list of components (`FsPath`).
* `Result<T, Errors>` becomes `Except Errors T`; a Rust panic (`unwrap` on
  `Option`/`to_str`) is a distinguished outcome constructor.
* The local disk is a finite association list from paths to nodes
  (`Filesystem`), in traversal order; the archiver reads it through
  `Filesystem.lookup`. The walker of `upload`
  (`ignore::WalkBuilder::new(workspace).build()` with its default standard
  filters) does NOT see the whole disk: it skips every entry with a hidden
  component below the root and every entry matched by its gitignore-style
  rules; `walkEntries` models the hidden-component skip concretely and
  abstracts the ignore rules as a predicate.
* A tar payload is modelled as its list of entries: `tar-rs`'s
  `append_path_with_name` appends a content-carrying entry for a regular
  file and a content-less directory entry for a directory, and fails for a
  path that does not exist.
* The compiled gitignore matcher is an opaque function
  `FsPath → Bool → Bool` standing for `Gitignore::matched(path, is_dir).is_ignore()`.
-/

deriving instance DecidableEq for Except

namespace AmpCli

/-- A byte sequence, standing for an `OsStr` on the Rust side. -/
abbrev OsStr := List Nat

/-- A filesystem path, as its list of components (what Rust's
`Path::components` yields, with the root prefix dropped). -/
structure FsPath where
  segments : List OsStr
  deriving DecidableEq

/-- The byte sequence `..`, the parent-directory traversal component. -/
def dotdot : OsStr := [46, 46]

/-- A node of the local filesystem: a regular file with its content bytes,
or a directory. -/
inductive FsNode where
  | file (content : List Nat)
  | dir
  deriving DecidableEq

/-- The local disk: an association list from full paths to nodes, in
traversal order. The archiver reads it through `lookup`; the walker sees
only its `walkEntries` filtration. -/
structure Filesystem where
  entries : List (FsPath × FsNode)
  deriving DecidableEq

/-- Looking a path up on disk (what `fs::metadata` + reading resolves). -/
def Filesystem.lookup (fs : Filesystem) (p : FsPath) : Option FsNode :=
  (fs.entries.find? (fun e => e.1 = p)).map Prod.snd

/-- The error kinds of `src/errors.rs` that the sync core can produce. -/
inductive Errors where
  | ClientError
  | FailedFinishTar
  | WalkError
  | FailedStripPrefix
  | FailedAppendPath
  deriving DecidableEq

/-! The raw event vocabulary of the `notify` crate (version 5), embedded in
full so that totality of the classifier is totality over the real input
type. -/

/-- `notify::event::AccessMode`. -/
inductive AccessMode where
  | Any
  | Execute
  | Read
  | Write
  | Other
  deriving DecidableEq

/-- `notify::event::AccessKind`. -/
inductive AccessKind where
  | Any
  | Read
  | Open (mode : AccessMode)
  | Close (mode : AccessMode)
  | Other
  deriving DecidableEq

/-- `notify::event::CreateKind`. -/
inductive CreateKind where
  | Any
  | File
  | Folder
  | Other
  deriving DecidableEq

/-- `notify::event::DataChange`. -/
inductive DataChange where
  | Any
  | Size
  | Content
  | Other
  deriving DecidableEq

/-- `notify::event::MetadataKind`. -/
inductive MetadataKind where
  | Any
  | AccessTime
  | WriteTime
  | Permissions
  | Ownership
  | Extended
  | Other
  deriving DecidableEq

/-- `notify::event::RenameMode`. -/
inductive RenameMode where
  | Any
  | To
  | From
  | Both
  | Other
  deriving DecidableEq

/-- `notify::event::ModifyKind`. -/
inductive ModifyKind where
  | Any
  | Data (change : DataChange)
  | Metadata (kind : MetadataKind)
  | Name (mode : RenameMode)
  | Other
  deriving DecidableEq

/-- `notify::event::RemoveKind`. -/
inductive RemoveKind where
  | Any
  | File
  | Folder
  | Other
  deriving DecidableEq

/-- `notify::EventKind`. -/
inductive EventKind where
  | Any
  | Access (kind : AccessKind)
  | Create (kind : CreateKind)
  | Modify (kind : ModifyKind)
  | Remove (kind : RemoveKind)
  | Other
  deriving DecidableEq

/-- A raw watcher event: its kind and the affected absolute paths
(`notify::Event`, restricted to the fields `dev.rs` reads). -/
structure Event where
  kind : EventKind
  paths : List FsPath
  deriving DecidableEq

/-- The program's own event classification (`enum EventKinds` in `dev.rs`). -/
inductive EventKinds where
  | Override
  | Create
  | Modify
  | Rename
  | Remove
  | Other
  deriving DecidableEq

/-- `impl From<EventKind> for EventKinds` in `dev.rs`. -/
def EventKinds.fromEventKind : EventKind → EventKinds
  | .Create .File => .Create
  | .Create .Folder => .Create
  | .Modify (.Data .Content) => .Modify
  | .Modify (.Name _) => .Rename
  | .Remove .File => .Remove
  | .Remove .Folder => .Remove
  | _ => .Other

/-- `impl ToString for EventKinds` in `dev.rs`. -/
def EventKinds.toString : EventKinds → String
  | .Override => "Override"
  | .Create => "Create"
  | .Modify => "Modify"
  | .Rename => "Rename"
  | .Remove => "Remove"
  | .Other => "Other"

/-- An entry of the tar payload built by `archive`: what
`tar::Builder::append_path_with_name` appends for a regular file
(content under the given name) or for a directory (a content-less
directory entry). -/
inductive TarEntry where
  | file (name : FsPath) (content : List Nat)
  | dir (name : FsPath)
  deriving DecidableEq

/-- `amp_client::actors::SynchronizationRequest`, with the payload kept as
its entry list rather than serialized tar bytes, and the always-`None`
attributes map kept as `Option Unit`. -/
structure SynchronizationRequest where
  kind : String
  paths : List String
  attributes : Option Unit
  payload : Option (List TarEntry)
  deriving DecidableEq

/-- Whether a byte is a UTF-8 continuation byte (`0x80..0xBF`). -/
def isCont (b : Nat) : Bool := decide (0x80 ≤ b ∧ b < 0xC0)

/-- Strict UTF-8 decoding of a byte sequence, with the exact validity rules
of Rust's `str` (no overlong forms, no surrogates, nothing above
`0x10FFFF`); `none` is the case in which `OsStr::to_str` returns `None`. -/
def utf8Decode : List Nat → Option (List Char)
  | [] => some []
  | b :: rest =>
    if b < 0x80 then
      (utf8Decode rest).map (fun cs => Char.ofNat b :: cs)
    else if b < 0xC2 then
      none
    else if b < 0xE0 then
      match rest with
      | [] => none
      | c1 :: rest2 =>
        if isCont c1 then
          (utf8Decode rest2).map (fun cs => Char.ofNat ((b - 0xC0) * 0x40 + (c1 - 0x80)) :: cs)
        else none
    else if b < 0xF0 then
      match rest with
      | c1 :: c2 :: rest2 =>
        if isCont c1 ∧ isCont c2 ∧ (b = 0xE0 → 0xA0 ≤ c1) ∧ (b = 0xED → c1 < 0xA0) then
          (utf8Decode rest2).map
            (fun cs => Char.ofNat ((b - 0xE0) * 0x1000 + (c1 - 0x80) * 0x40 + (c2 - 0x80)) :: cs)
        else none
      | _ => none
    else if b < 0xF5 then
      match rest with
      | c1 :: c2 :: c3 :: rest2 =>
        if isCont c1 ∧ isCont c2 ∧ isCont c3 ∧ (b = 0xF0 → 0x90 ≤ c1) ∧ (b = 0xF4 → c1 < 0x90) then
          (utf8Decode rest2).map
            (fun cs =>
              Char.ofNat
                  ((b - 0xF0) * 0x40000 + (c1 - 0x80) * 0x1000 + (c2 - 0x80) * 0x40 + (c3 - 0x80)) ::
                cs)
        else none
      | _ => none
    else none

/-- The OS-string form of a path: its components joined by `/`. -/
def pathOsStr (p : FsPath) : OsStr :=
  (p.segments.intersperse [0x2F]).flatten

/-- `OsStr::to_str` followed by `to_string`: `some` exactly when the bytes
are valid UTF-8. -/
def osToString (s : OsStr) : Option String :=
  (utf8Decode s).map List.asString

/-- `strip` in `dev.rs`: `path.strip_prefix(base)` packaged as the
(full, relative) pair, failing with `Errors::FailedStripPrefix` when `base`
is not a component-wise prefix of `path`. -/
def strip (base path : FsPath) : Except Errors (FsPath × FsPath) :=
  if base.segments <+: path.segments then
    .ok (path, ⟨path.segments.drop base.segments.length⟩)
  else
    .error .FailedStripPrefix

/-- `Path::join` for a relative right-hand side: append the components. -/
def FsPath.join (root rel : FsPath) : FsPath :=
  ⟨root.segments ++ rel.segments⟩

/-- The `for path in event.paths { paths.push(strip(base, path)?) }` loop of
`handle`: strip every path, aborting on the first failure. -/
def stripAll (base : FsPath) : List FsPath → Except Errors (List (FsPath × FsPath))
  | [] => .ok []
  | p :: rest => do
    let pr ← strip base p
    let prs ← stripAll base rest
    return pr :: prs

/-- The `paths.iter().map(|(_, a)| a.to_str().unwrap().to_string())` step of
`handle`: `none` is the case in which the `unwrap` panics. -/
def toStrUnwrapAll (paths : List (FsPath × FsPath)) : Option (List String) :=
  paths.mapM (fun pr => osToString (pathOsStr pr.2))

/-- `archive` in `dev.rs`: append each pair's full path under its relative
name. Per `tar-rs`, a regular file becomes a content entry, a directory
becomes a content-less directory entry, and a missing path is an I/O error
(wrapped as `Errors::FailedAppendPath`). -/
def archive (fs : Filesystem) : List (FsPath × FsPath) → Except Errors (List TarEntry)
  | [] => .ok []
  | (p, name) :: rest =>
    match fs.lookup p with
    | some (.file c) => (archive fs rest).map (fun out => TarEntry.file name c :: out)
    | some .dir => (archive fs rest).map (fun out => TarEntry.dir name :: out)
    | none => .error .FailedAppendPath

/-- The outcome of `handle` for one event: `ok (some req)` means it
returned `Ok` after passing `req` to `client.sync`; `ok none` means it
returned `Ok` without dispatching; `panicked` is the `to_str().unwrap()`
panic; `error` is an early `?` return. -/
inductive HandleOutcome where
  | ok (dispatched : Option SynchronizationRequest)
  | panicked
  | error (e : Errors)
  deriving DecidableEq

/-- `handle` in `dev.rs`, with the dispatched request (if any) made
explicit in the outcome. -/
def handle (fs : Filesystem) (base : FsPath) (event : Event) : HandleOutcome :=
  let kind := EventKinds.fromEventKind event.kind
  if kind = EventKinds.Rename ∨ kind = EventKinds.Other then
    .ok none
  else
    match stripAll base event.paths with
    | .error e => .error e
    | .ok paths =>
      match toStrUnwrapAll paths with
      | none => .panicked
      | some strs =>
        let req : SynchronizationRequest :=
          { kind := kind.toString, paths := strs, attributes := none, payload := none }
        if kind = EventKinds.Create ∨ kind = EventKinds.Modify then
          match archive fs paths with
          | .error e => .error e
          | .ok payload => .ok (some { req with payload := some payload })
        else
          .ok (some req)

/-- The walk loop of `upload`: skip directories, strip every remaining
entry against the workspace root, aborting on the first strip failure. -/
def collectFiles (base : FsPath) : List (FsPath × FsNode) → Except Errors (List (FsPath × FsPath))
  | [] => .ok []
  | (_, .dir) :: rest => collectFiles base rest
  | (p, .file _) :: rest => do
    let pr ← strip base p
    let prs ← collectFiles base rest
    return pr :: prs

/-- The outcome of `upload`: `ok req` means it returned `Ok` after passing
`req` to `client.sync`; `panicked` is the `archive(&paths).unwrap()` panic;
`error` is an early `?` return. -/
inductive UploadOutcome where
  | ok (req : SynchronizationRequest)
  | panicked
  | error (e : Errors)
  deriving DecidableEq

/-- Whether a path component is hidden: its name begins with a dot byte.
The default standard filters of `ignore::WalkBuilder` skip hidden
entries. -/
def isHiddenName (s : OsStr) : Bool := decide (s.head? = some 46)

/-- The entries `ignore::WalkBuilder::new(workspace).build()` yields from
the disk under its default standard filters: every entry with a hidden
component below the root is skipped (the walker neither yields hidden
entries nor descends into hidden directories), and so is every entry
matched by the walk's gitignore-style rules, abstracted here as the
predicate `ign`. -/
def walkEntries (workspace : FsPath) (ign : FsPath → Bool) (fs : Filesystem) :
    List (FsPath × FsNode) :=
  fs.entries.filter fun e =>
    !(e.1.segments.drop workspace.segments.length).any isHiddenName && !ign e.1

/-- `upload` in `dev.rs`: the initial synchronization over the filtered
walk of the workspace. -/
def upload (fs : Filesystem) (workspace : FsPath) (ign : FsPath → Bool) : UploadOutcome :=
  match collectFiles workspace (walkEntries workspace ign fs) with
  | .error e => .error e
  | .ok paths =>
    match archive fs paths with
    | .error _ => .panicked
    | .ok payload =>
      .ok
        { kind := EventKinds.Override.toString
          paths := []
          attributes := none
          payload := some payload }

/-- The compiled gitignore matcher, abstracted to the only operation
`dev.rs` uses: `matcher.matched(path, is_dir).is_ignore()`. -/
abbrev Matcher := FsPath → Bool → Bool

/-- `is_ignored` in `dev.rs`: strip each affected path against the root and
stop at the first one the matcher ignores (always queried with the
is-directory flag `false`); a strip failure aborts with
`Errors::FailedStripPrefix`. -/
def is_ignored (matcher : Matcher) (root : FsPath) : List FsPath → Except Errors Bool
  | [] => .ok false
  | path :: rest =>
    if root.segments <+: path.segments then
      if matcher ⟨path.segments.drop root.segments.length⟩ false then
        .ok true
      else
        is_ignored matcher root rest
    else
      .error .FailedStripPrefix

/-- The outcome of one iteration of the watch loop of `dev` for one event:
dropped by the ignore filter, passed on to `handle`, or aborted by a strip
failure inside `is_ignored`. -/
inductive StepOutcome where
  | droppedIgnored
  | handled (h : HandleOutcome)
  | error (e : Errors)
  deriving DecidableEq

/-- One iteration of the `for event in rx` loop of `dev`: the ignore check
runs first and a matching event never reaches `handle`. -/
def processEvent (fs : Filesystem) (matcher : Matcher) (workspace : FsPath) (event : Event) :
    StepOutcome :=
  match is_ignored matcher workspace event.paths with
  | .error e => .error e
  | .ok true => .droppedIgnored
  | .ok false => .handled (handle fs workspace event)

/-- The request a loop iteration dispatched to the remote endpoint, if any. -/
def StepOutcome.request : StepOutcome → Option SynchronizationRequest
  | .handled (.ok r) => r
  | _ => none

/-! Concrete sample values (byte 114 is `r`, 97 is `a`, 98 is `b`,
104/105 are `h`/`i`, 115/117/98 spell `sub`, 120 is `x`). -/

/-- Sample workspace root `r`. -/
def wsR : FsPath := ⟨[[114]]⟩

/-- Sample one-file disk: the regular file `r/a` with content `hi`. -/
def fsSmall : Filesystem := ⟨[(⟨[[114], [97]]⟩, .file [104, 105])]⟩

/-- Sample removal event for `r/a`. -/
def evRemoveA : Event := ⟨.Remove .File, [⟨[[114], [97]]⟩]⟩

/-- Sample file-creation event for `r/a`. -/
def evCreateA : Event := ⟨.Create .File, [⟨[[114], [97]]⟩]⟩

/-- Sample disk holding only the directory `r/sub`. -/
def fsSubdir : Filesystem := ⟨[(⟨[[114], [115, 117, 98]]⟩, .dir)]⟩

/-- Sample folder-creation event for `r/sub`. -/
def evMkdirSub : Event := ⟨.Create .Folder, [⟨[[114], [115, 117, 98]]⟩]⟩

/-- The path component `build`. -/
def bldSeg : OsStr := [98, 117, 105, 108, 100]

/-- The hidden file name `.amp.toml` (the manifest the CLI discovers; it
always sits directly inside the workspace). -/
def dotAmpToml : OsStr := [46, 97, 109, 112, 46, 116, 111, 109, 108]

/-- A sample compiled matcher that ignores exactly the relative paths whose
first component is `build`. -/
def mBuild : Matcher := fun p _ => decide (p.segments.head? = some bldSeg)

/-! Helper lemmas shared by several claims. -/

/-- The classifier never produces the synthetic `Override` intent: that
intent exists only for the initial full sync in `upload`. -/
theorem fromEventKind_ne_override (k : EventKind) :
    EventKinds.fromEventKind k ≠ .Override := by
  cases k with
  | Any => simp [EventKinds.fromEventKind]
  | Access a => cases a <;> simp [EventKinds.fromEventKind]
  | Create ck => cases ck <;> simp [EventKinds.fromEventKind]
  | Modify mk =>
    cases mk with
    | Any => simp [EventKinds.fromEventKind]
    | Data d => cases d <;> simp [EventKinds.fromEventKind]
    | Metadata m => cases m <;> simp [EventKinds.fromEventKind]
    | Name r => cases r <;> simp [EventKinds.fromEventKind]
    | Other => simp [EventKinds.fromEventKind]
  | Remove rk => cases rk <;> simp [EventKinds.fromEventKind]
  | Other => simp [EventKinds.fromEventKind]

/-- When every affected path is under the root, `is_ignored` computes the
disjunction, over the affected paths, of the matcher queried on the
stripped path with the is-directory flag `false`. -/
theorem is_ignored_any (matcher : Matcher) (root : FsPath) (paths : List FsPath)
    (h : ∀ p ∈ paths, root.segments <+: p.segments) :
    is_ignored matcher root paths =
      .ok (paths.any fun p => matcher ⟨p.segments.drop root.segments.length⟩ false) := by
  induction paths with
  | nil => rfl
  | cons p t ih =>
    have hp : root.segments <+: p.segments := h p (List.mem_cons_self p t)
    have ht : ∀ q ∈ t, root.segments <+: q.segments :=
      fun q hq => h q (List.mem_cons_of_mem p hq)
    by_cases hm : matcher ⟨p.segments.drop root.segments.length⟩ false
    · simp [is_ignored, hp, hm]
    · simp only [Bool.not_eq_true] at hm
      simp [is_ignored, hp, hm, ih ht]

/-- On an association list whose keys are distinct, `find?` by key retrieves
the stored value of a member. -/
theorem find_assoc_nodup {l : List (FsPath × FsNode)} (hnd : (l.map Prod.fst).Nodup)
    {p : FsPath} {n : FsNode} (hmem : (p, n) ∈ l) :
    (l.find? (fun e => e.1 = p)).map Prod.snd = some n := by
  induction l with
  | nil => cases hmem
  | cons e t ih =>
    rw [List.map_cons, List.nodup_cons] at hnd
    by_cases he : e.1 = p
    · rcases List.mem_cons.mp hmem with h1 | h1
      · subst h1
        rw [List.find?_cons_of_pos _ (by simp)]
        rfl
      · exact absurd (he ▸ List.mem_map_of_mem Prod.fst h1) hnd.1
    · rcases List.mem_cons.mp hmem with h1 | h1
      · exact absurd (congrArg Prod.fst h1.symm) he
      · rw [List.find?_cons_of_neg _ (by simpa using he)]
        exact ih hnd.2 h1

/-- Looking up a member of a duplicate-free disk returns its stored node. -/
theorem lookup_eq_of_mem {fs : Filesystem} (hnd : (fs.entries.map Prod.fst).Nodup)
    {p : FsPath} {n : FsNode} (hmem : (p, n) ∈ fs.entries) :
    fs.lookup p = some n :=
  find_assoc_nodup hnd hmem

/-- Structure of every request `handle` actually dispatches: the paths come
from stripping every affected path, converted to UTF-8 strings, the kind
string is the classified intent's name, and the payload is the archive
exactly for Create/Modify while Remove carries none. -/
theorem handle_ok_some {fs : Filesystem} {base : FsPath} {ev : Event}
    {req : SynchronizationRequest} (h : handle fs base ev = .ok (some req)) :
    ∃ prs strs,
      stripAll base ev.paths = .ok prs ∧
      toStrUnwrapAll prs = some strs ∧
      req.paths = strs ∧
      req.kind = (EventKinds.fromEventKind ev.kind).toString ∧
      req.attributes = none ∧
      ((EventKinds.fromEventKind ev.kind = .Create ∨
          EventKinds.fromEventKind ev.kind = .Modify) →
        ∃ out, archive fs prs = .ok out ∧ req.payload = some out) ∧
      (EventKinds.fromEventKind ev.kind = .Remove → req.payload = none) ∧
      (EventKinds.fromEventKind ev.kind = .Remove ∨
        EventKinds.fromEventKind ev.kind = .Create ∨
        EventKinds.fromEventKind ev.kind = .Modify) := by
  by_cases h1 : EventKinds.fromEventKind ev.kind = .Rename ∨
      EventKinds.fromEventKind ev.kind = .Other
  · simp [handle, h1] at h
  · simp only [handle] at h
    rw [if_neg h1] at h
    split at h
    next e hs => simp at h
    next prs hs =>
      split at h
      next hts => simp at h
      next strs hts =>
        split at h
        next h2 =>
          split at h
          next e ha => simp at h
          next out ha =>
            simp only [HandleOutcome.ok.injEq, Option.some.injEq] at h
            subst h
            exact ⟨prs, strs, hs, hts, rfl, rfl, rfl, fun _ => ⟨out, ha, rfl⟩,
              fun hrem => by rcases h2 with h2 | h2 <;> rw [h2] at hrem <;> simp at hrem,
              Or.inr h2⟩
        next h2 =>
          simp only [HandleOutcome.ok.injEq, Option.some.injEq] at h
          subst h
          have hrem : EventKinds.fromEventKind ev.kind = .Remove := by
            cases hk : EventKinds.fromEventKind ev.kind with
            | Override => exact absurd hk (fromEventKind_ne_override ev.kind)
            | Create => exact absurd (Or.inl hk) h2
            | Modify => exact absurd (Or.inr hk) h2
            | Rename => exact absurd (Or.inl hk) h1
            | Remove => rfl
            | Other => exact absurd (Or.inr hk) h1
          exact ⟨prs, strs, hs, hts, rfl, rfl, rfl, fun hc => absurd hc h2,
            fun _ => rfl, Or.inl hrem⟩

/-- Claim C3: the event classifier is total on raw event kinds and maps
file/directory creation to Create, content modification to Modify,
name/rename modification to Rename, file/directory removal to Remove, and
every other raw kind (metadata-only changes, access events,
platform-specific or unspecified kinds) to Other. The last conjunct shows
the listed shapes are the only ones not sent to Other. -/
theorem classifier_table :
    EventKinds.fromEventKind (.Create .File) = .Create ∧
    EventKinds.fromEventKind (.Create .Folder) = .Create ∧
    EventKinds.fromEventKind (.Modify (.Data .Content)) = .Modify ∧
    (∀ r, EventKinds.fromEventKind (.Modify (.Name r)) = .Rename) ∧
    EventKinds.fromEventKind (.Remove .File) = .Remove ∧
    EventKinds.fromEventKind (.Remove .Folder) = .Remove ∧
    (∀ a, EventKinds.fromEventKind (.Access a) = .Other) ∧
    (∀ m, EventKinds.fromEventKind (.Modify (.Metadata m)) = .Other) ∧
    (∀ k, EventKinds.fromEventKind k = .Other ∨
      k = .Create .File ∨ k = .Create .Folder ∨ k = .Modify (.Data .Content) ∨
      (∃ r, k = .Modify (.Name r)) ∨ k = .Remove .File ∨ k = .Remove .Folder) := by
  refine ⟨rfl, rfl, rfl, fun r => by cases r <;> rfl, rfl, rfl,
    fun a => by cases a <;> rfl, fun m => by cases m <;> rfl, fun k => ?_⟩
  cases k with
  | Any => exact Or.inl rfl
  | Access a => exact Or.inl (by cases a <;> rfl)
  | Create ck =>
    cases ck with
    | File => exact Or.inr (Or.inl rfl)
    | Folder => exact Or.inr (Or.inr (Or.inl rfl))
    | Any => exact Or.inl rfl
    | Other => exact Or.inl rfl
  | Modify mk =>
    cases mk with
    | Any => exact Or.inl rfl
    | Data d =>
      cases d with
      | Content => exact Or.inr (Or.inr (Or.inr (Or.inl rfl)))
      | Any => exact Or.inl rfl
      | Size => exact Or.inl rfl
      | Other => exact Or.inl rfl
    | Metadata m => exact Or.inl (by cases m <;> rfl)
    | Name r => exact Or.inr (Or.inr (Or.inr (Or.inr (Or.inl ⟨r, rfl⟩))))
    | Other => exact Or.inl rfl
  | Remove rk =>
    cases rk with
    | File => exact Or.inr (Or.inr (Or.inr (Or.inr (Or.inr (Or.inl rfl)))))
    | Folder => exact Or.inr (Or.inr (Or.inr (Or.inr (Or.inr (Or.inr rfl)))))
    | Any => exact Or.inl rfl
    | Other => exact Or.inl rfl
  | Other => exact Or.inl rfl

/-- Claim C2: for an event classified Rename or Other, `handle` returns
without error and dispatches nothing, and no iteration of the watch loop
on that event ever produces a request. -/
theorem rename_other_never_dispatch (fs : Filesystem) (base : FsPath) (event : Event)
    (hk : EventKinds.fromEventKind event.kind = .Rename ∨
      EventKinds.fromEventKind event.kind = .Other) :
    handle fs base event = .ok none ∧
      ∀ matcher : Matcher, (processEvent fs matcher base event).request = none := by
  have h1 : handle fs base event = .ok none := by
    simp only [handle]
    rw [if_pos hk]
  refine ⟨h1, fun matcher => ?_⟩
  cases h : is_ignored matcher base event.paths with
  | error e => simp [processEvent, h, StepOutcome.request]
  | ok b => cases b <;> simp [processEvent, h, h1, StepOutcome.request]

/-- Witness for C2 at a concrete rename event. -/
theorem rename_other_never_dispatch_witness :
    handle fsSmall wsR ⟨.Modify (.Name .Any), [⟨[[114], [97]]⟩]⟩ = .ok none ∧
      (processEvent fsSmall mBuild wsR ⟨.Modify (.Name .Any), [⟨[[114], [97]]⟩]⟩).request =
        none := by
  have h := rename_other_never_dispatch fsSmall wsR ⟨.Modify (.Name .Any), [⟨[[114], [97]]⟩]⟩
    (Or.inl rfl)
  exact ⟨h.1, h.2 mBuild⟩

/-- Claim C8: a path of which the workspace root is not a component-wise
prefix makes `strip` fail with the FailedStripPrefix error kind, and no
path pair is returned. -/
theorem strip_outside_root_fails (root p : FsPath) (h : ¬ root.segments <+: p.segments) :
    strip root p = .error .FailedStripPrefix := by
  simp only [strip]
  rw [if_neg h]

/-- Witness for C8 at a concrete outside path. -/
theorem strip_outside_root_fails_witness :
    strip ⟨[[97]]⟩ ⟨[[98]]⟩ = .error .FailedStripPrefix :=
  strip_outside_root_fails ⟨[[97]]⟩ ⟨[[98]]⟩ (by decide)

/-- Claim C7: for a canonical absolute path under the workspace root
(the root's components are a prefix and no component is a parent-directory
traversal), `strip` succeeds, the relative part never begins with a `..`
component, and joining the root back onto the relative part restores the
original path. -/
theorem strip_under_root_roundtrip (root p : FsPath)
    (hpre : root.segments <+: p.segments) (hcanon : dotdot ∉ p.segments) :
    strip root p = .ok (p, ⟨p.segments.drop root.segments.length⟩) ∧
      (⟨p.segments.drop root.segments.length⟩ : FsPath).segments.head? ≠ some dotdot ∧
      FsPath.join root ⟨p.segments.drop root.segments.length⟩ = p := by
  refine ⟨?_, ?_, ?_⟩
  · simp only [strip]
    rw [if_pos hpre]
  · intro hhd
    exact hcanon (List.drop_subset _ _ (List.mem_of_mem_head? hhd))
  · obtain ⟨t, ht⟩ := hpre
    have hdrop : root.segments ++ p.segments.drop root.segments.length = p.segments := by
      rw [← ht, List.drop_left]
    exact congrArg FsPath.mk hdrop

/-- Witness for C7 at the concrete path r/a under root r. -/
theorem strip_under_root_roundtrip_witness :
    strip wsR ⟨[[114], [97]]⟩ = .ok (⟨[[114], [97]]⟩, ⟨[[97]]⟩) ∧
      FsPath.join wsR ⟨[[97]]⟩ = ⟨[[114], [97]]⟩ := by
  have h := strip_under_root_roundtrip wsR ⟨[[114], [97]]⟩ (by decide) (by decide)
  exact ⟨h.1, h.2.2⟩

/-- Claim C10: `is_ignored` queries the matcher with the is-directory flag
fixed to `false` for every affected path — its result only depends on the
matcher's behavior at flag `false` — and, for paths under the root, it
returns exactly whether some affected path's stripped form is ignored
under that flag. -/
theorem ignore_flag_always_false (matcher : Matcher) (root : FsPath) (paths : List FsPath) :
    is_ignored matcher root paths = is_ignored (fun p _ => matcher p false) root paths ∧
      ((∀ p ∈ paths, root.segments <+: p.segments) →
        is_ignored matcher root paths =
          .ok (paths.any fun p => matcher ⟨p.segments.drop root.segments.length⟩ false)) := by
  refine ⟨?_, is_ignored_any matcher root paths⟩
  induction paths with
  | nil => rfl
  | cons p t ih =>
    by_cases hpre : root.segments <+: p.segments
    · by_cases hm : matcher ⟨p.segments.drop root.segments.length⟩ false
      · simp [is_ignored, hpre, hm]
      · simp only [Bool.not_eq_true] at hm
        simp [is_ignored, hpre, hm, ih]
    · simp [is_ignored, hpre]

/-- Witness for C10: a matcher that ignores only when the flag claims a
directory never suppresses anything, because the flag is always false. -/
theorem ignore_flag_always_false_witness :
    is_ignored (fun _ isDir => isDir) ⟨[]⟩ [⟨[[100]]⟩] = .ok false := by
  have h := (ignore_flag_always_false (fun _ isDir => isDir) ⟨[]⟩ [⟨[[100]]⟩]).2 (by decide)
  simpa using h

/-- Walking a duplicate-free list of disk entries that all lie under the
workspace root, `upload`'s collection loop keeps exactly the non-directory
entries as (full, relative) pairs, and archiving those pairs yields exactly
one content entry per regular file, under its relative name. -/
theorem collect_archive (fs : Filesystem) (ws : FsPath)
    (hnd : (fs.entries.map Prod.fst).Nodup) :
    ∀ l : List (FsPath × FsNode), (∀ e ∈ l, e ∈ fs.entries) →
      (∀ e ∈ l, ws.segments <+: e.1.segments) →
      collectFiles ws l = .ok (l.filterMap fun e =>
        match e.2 with
        | .file _ => some (e.1, (⟨e.1.segments.drop ws.segments.length⟩ : FsPath))
        | .dir => none) ∧
      archive fs (l.filterMap fun e =>
        match e.2 with
        | .file _ => some (e.1, (⟨e.1.segments.drop ws.segments.length⟩ : FsPath))
        | .dir => none) = .ok (l.filterMap fun e =>
        match e.2 with
        | .file c => some (TarEntry.file ⟨e.1.segments.drop ws.segments.length⟩ c)
        | .dir => none) := by
  intro l
  induction l with
  | nil => exact fun _ _ => ⟨rfl, rfl⟩
  | cons e t ih =>
    intro hmem hpre
    obtain ⟨ihc, iha⟩ := ih (fun q hq => hmem q (List.mem_cons_of_mem e hq))
      (fun q hq => hpre q (List.mem_cons_of_mem e hq))
    obtain ⟨p, n⟩ := e
    cases n with
    | dir =>
      constructor
      · simpa [collectFiles, List.filterMap_cons] using ihc
      · simpa [List.filterMap_cons] using iha
    | file c =>
      have hp : ws.segments <+: p.segments := hpre (p, .file c) (List.mem_cons_self _ _)
      have hl : fs.lookup p = some (.file c) :=
        lookup_eq_of_mem hnd (hmem (p, .file c) (List.mem_cons_self _ _))
      constructor
      · simp [collectFiles, strip, hp, ihc, List.filterMap_cons, Bind.bind, Except.bind,
          Pure.pure, Except.pure]
      · simp [archive, hl, iha, List.filterMap_cons, Except.map]

/-- Counterexample to claim C4 as stated: the walker of `upload` runs with
the ignore crate's default standard filters, which skip hidden entries, so
initial synchronization does NOT build a pair for every regular file under
the root. Concretely, a workspace holding only the hidden manifest
`.amp.toml` dispatches an Override request whose payload has no entry for
that regular file. -/
theorem hidden_file_skipped_cex :
    ¬ ∀ (fs : Filesystem) (ws : FsPath) (ign : FsPath → Bool) (req : SynchronizationRequest)
        (pl : List TarEntry),
        upload fs ws ign = .ok req → req.payload = some pl →
        ∀ p c, (p, FsNode.file c) ∈ fs.entries → ws.segments <+: p.segments →
          TarEntry.file ⟨p.segments.drop ws.segments.length⟩ c ∈ pl := by
  intro h
  have hmem := h ⟨[(⟨[[114]]⟩, .dir), (⟨[[114], dotAmpToml]⟩, .file [97])]⟩ ⟨[[114]]⟩
    (fun _ => false)
    { kind := "Override", paths := [], attributes := none, payload := some [] } []
    (by decide) rfl ⟨[[114], dotAmpToml]⟩ [97] (by decide) (by decide)
  simp at hmem

/-- Claim C4 (amended): initial synchronization walks the workspace
through the default filtered walker — which yields exactly the disk
entries with no hidden component below the root and not matched by the
walk's ignore rules — skips directories, pairs every regular file the walk
yields with its root-relative name, and dispatches exactly one request
with kind "Override", an empty paths list, and a payload holding one entry
per walked regular file under its relative name. -/
theorem initial_sync_override (fs : Filesystem) (ws : FsPath) (ign : FsPath → Bool)
    (hnd : (fs.entries.map Prod.fst).Nodup)
    (hpre : ∀ e ∈ fs.entries, ws.segments <+: e.1.segments) :
    upload fs ws ign = .ok
      { kind := "Override"
        paths := []
        attributes := none
        payload := some ((walkEntries ws ign fs).filterMap fun e =>
          match e.2 with
          | .file c => some (TarEntry.file ⟨e.1.segments.drop ws.segments.length⟩ c)
          | .dir => none) } ∧
      ∀ e, e ∈ walkEntries ws ign fs ↔
        (e ∈ fs.entries ∧
          (e.1.segments.drop ws.segments.length).any isHiddenName = false ∧
          ign e.1 = false) := by
  obtain ⟨hc, ha⟩ := collect_archive fs ws hnd (walkEntries ws ign fs)
    (fun q hq => List.mem_of_mem_filter hq)
    (fun q hq => hpre q (List.mem_of_mem_filter hq))
  constructor
  · simp [upload, hc, ha, EventKinds.toString]
  · intro e
    simp [walkEntries, List.mem_filter, Bool.and_eq_true, Bool.not_eq_true', and_assoc]

/-- Witness for C4 (amended) over the tree r/{a, .amp.toml, sub/b}: one
Override request whose archive holds the walked entries a and sub/b; the
hidden manifest is not walked. -/
theorem initial_sync_override_witness :
    upload ⟨[(⟨[[114]]⟩, .dir), (⟨[[114], [97]]⟩, .file [104, 105]),
             (⟨[[114], dotAmpToml]⟩, .file [97]),
             (⟨[[114], [115, 117, 98]]⟩, .dir),
             (⟨[[114], [115, 117, 98], [98]]⟩, .file [120])]⟩ ⟨[[114]]⟩ (fun _ => false) =
      .ok { kind := "Override", paths := [], attributes := none,
            payload := some [TarEntry.file ⟨[[97]]⟩ [104, 105],
                             TarEntry.file ⟨[[115, 117, 98], [98]]⟩ [120]] } := by
  have h := (initial_sync_override
    ⟨[(⟨[[114]]⟩, .dir), (⟨[[114], [97]]⟩, .file [104, 105]),
      (⟨[[114], dotAmpToml]⟩, .file [97]),
      (⟨[[114], [115, 117, 98]]⟩, .dir),
      (⟨[[114], [115, 117, 98], [98]]⟩, .file [120])]⟩ ⟨[[114]]⟩ (fun _ => false)
    (by decide) (by decide)).1
  exact h

/-- Claim C1: every request `handle` dispatches has a payload exactly when
its kind string is Override, Create or Modify; a dispatched Remove request
carries the event's stripped relative paths and no payload; and the
initial-sync request has kind "Override" with a payload. -/
theorem payload_present_iff_kind :
    (∀ fs base ev req, handle fs base ev = .ok (some req) →
      (req.payload.isSome = true ↔
        (req.kind = "Override" ∨ req.kind = "Create" ∨ req.kind = "Modify"))) ∧
    (∀ fs base ev req,
      EventKinds.fromEventKind ev.kind = .Remove →
      handle fs base ev = .ok (some req) →
      req.payload = none ∧ req.kind = "Remove" ∧
        ∃ prs, stripAll base ev.paths = .ok prs ∧ toStrUnwrapAll prs = some req.paths) ∧
    (∀ fs ws ign req, upload fs ws ign = .ok req →
      req.kind = "Override" ∧ req.paths = [] ∧ req.payload.isSome = true) := by
  refine ⟨?_, ?_, ?_⟩
  · intro fs base ev req h
    obtain ⟨prs, strs, hs, hts, hp, hkind, hattr, hcm, hrem, hcase⟩ := handle_ok_some h
    rcases hcase with hk | hk | hk
    · rw [hrem hk, hkind, hk]
      decide
    · obtain ⟨out, ha, hpay⟩ := hcm (Or.inl hk)
      rw [hpay, hkind, hk]
      simp [EventKinds.toString]
    · obtain ⟨out, ha, hpay⟩ := hcm (Or.inr hk)
      rw [hpay, hkind, hk]
      simp [EventKinds.toString]
  · intro fs base ev req hk h
    obtain ⟨prs, strs, hs, hts, hp, hkind, hattr, hcm, hrem, hcase⟩ := handle_ok_some h
    refine ⟨hrem hk, ?_, prs, hs, ?_⟩
    · rw [hkind, hk]
      rfl
    · rw [hp]
      exact hts
  · intro fs ws ign req h
    simp only [upload] at h
    split at h
    next e hc => simp at h
    next prs hc =>
      split at h
      next e ha => simp at h
      next out ha =>
        simp only [UploadOutcome.ok.injEq] at h
        subst h
        exact ⟨rfl, rfl, rfl⟩

/-- Witness for C1 at a concrete Remove dispatch and the concrete initial
sync of a one-file workspace. -/
theorem payload_present_iff_kind_witness :
    ((none : Option (List TarEntry)).isSome = true ↔
      (("Remove" : String) = "Override" ∨ ("Remove" : String) = "Create" ∨
        ("Remove" : String) = "Modify")) ∧
    ("Override" : String) = "Override" ∧
    (some [TarEntry.file ⟨[[97]]⟩ [104, 105]] : Option (List TarEntry)).isSome = true := by
  refine ⟨?_, ?_, ?_⟩
  · exact payload_present_iff_kind.1 fsSmall wsR evRemoveA
      { kind := "Remove", paths := ["a"], attributes := none, payload := none } (by decide)
  · exact (payload_present_iff_kind.2.2 fsSmall wsR (fun _ => false)
      { kind := "Override", paths := [], attributes := none,
        payload := some [TarEntry.file ⟨[[97]]⟩ [104, 105]] } (by decide)).1
  · exact (payload_present_iff_kind.2.2 fsSmall wsR (fun _ => false)
      { kind := "Override", paths := [], attributes := none,
        payload := some [TarEntry.file ⟨[[97]]⟩ [104, 105]] } (by decide)).2.2

/-- Claim C9: when an event that will be dispatched has a stripped path
whose bytes are not valid UTF-8, `handle` panics (the to_str unwrap)
instead of returning a typed error; and every request it does dispatch
carries exactly the successful UTF-8 decodings of the stripped paths. -/
theorem relative_paths_utf8_or_panic :
    (∀ fs base ev prs,
      EventKinds.fromEventKind ev.kind ≠ .Rename →
      EventKinds.fromEventKind ev.kind ≠ .Other →
      stripAll base ev.paths = .ok prs →
      toStrUnwrapAll prs = none →
      handle fs base ev = .panicked) ∧
    (∀ fs base ev req, handle fs base ev = .ok (some req) →
      ∃ prs, stripAll base ev.paths = .ok prs ∧ toStrUnwrapAll prs = some req.paths) := by
  constructor
  · intro fs base ev prs h1 h2 hs hts
    have hno : ¬(EventKinds.fromEventKind ev.kind = .Rename ∨
        EventKinds.fromEventKind ev.kind = .Other) := by
      rintro (h | h)
      exacts [h1 h, h2 h]
    simp [handle, hno, hs, hts]
  · intro fs base ev req h
    obtain ⟨prs, strs, hs, hts, hp, _⟩ := handle_ok_some h
    refine ⟨prs, hs, ?_⟩
    rw [hp]
    exact hts

/-- Witness for C9: a Remove event whose sole path is the invalid UTF-8
byte 255 makes `handle` panic. -/
theorem relative_paths_utf8_or_panic_witness :
    handle fsSmall ⟨[]⟩ ⟨.Remove .File, [⟨[[255]]⟩]⟩ = .panicked :=
  relative_paths_utf8_or_panic.1 fsSmall ⟨[]⟩ ⟨.Remove .File, [⟨[[255]]⟩]⟩
    [(⟨[[255]]⟩, ⟨[[255]]⟩)] (by decide) (by decide) (by decide) (by decide)

/-- Claim C5: when some affected path of an event (all under the root)
matches the ignore matcher, the loop drops the whole event before
classification and dispatches nothing; when every affected path fails to
match, the event is passed on to `handle` unsuppressed. -/
theorem ignored_event_dropped (fs : Filesystem) (matcher : Matcher) (ws : FsPath) (ev : Event)
    (hpre : ∀ p ∈ ev.paths, ws.segments <+: p.segments) :
    ((∃ p ∈ ev.paths, matcher ⟨p.segments.drop ws.segments.length⟩ false = true) →
      processEvent fs matcher ws ev = .droppedIgnored ∧
        (processEvent fs matcher ws ev).request = none) ∧
    ((∀ p ∈ ev.paths, matcher ⟨p.segments.drop ws.segments.length⟩ false = false) →
      processEvent fs matcher ws ev = .handled (handle fs ws ev)) := by
  have hig := is_ignored_any matcher ws ev.paths hpre
  constructor
  · rintro ⟨p, hp, hm⟩
    have hany : (ev.paths.any fun p =>
        matcher ⟨p.segments.drop ws.segments.length⟩ false) = true :=
      List.any_eq_true.mpr ⟨p, hp, hm⟩
    rw [hany] at hig
    constructor <;> simp [processEvent, hig, StepOutcome.request]
  · intro hall
    have hany : (ev.paths.any fun p =>
        matcher ⟨p.segments.drop ws.segments.length⟩ false) = false := by
      rw [List.any_eq_false]
      intro p hp
      simp [hall p hp]
    rw [hany] at hig
    simp [processEvent, hig]

/-- Witness for C5: with a matcher ignoring relative paths under build,
creating r/build/o is dropped while creating the sibling r/a is handled. -/
theorem ignored_event_dropped_witness :
    processEvent fsSmall mBuild wsR ⟨.Create .File, [⟨[[114], bldSeg, [111]]⟩]⟩ =
        .droppedIgnored ∧
      processEvent fsSmall mBuild wsR evCreateA = .handled (handle fsSmall wsR evCreateA) := by
  constructor
  · exact ((ignored_event_dropped fsSmall mBuild wsR
      ⟨.Create .File, [⟨[[114], bldSeg, [111]]⟩]⟩ (by decide)).1
      ⟨⟨[[114], bldSeg, [111]]⟩, by decide, by decide⟩).1
  · exact (ignored_event_dropped fsSmall mBuild wsR evCreateA (by decide)).2 (by decide)

/-- Counterexample to claim C6 as stated: a folder-creation event is
classified Create, so its payload is archived, and tar stores the created
directory itself as a (content-less) directory entry — a directory IS
stored as an entry in an archive payload. -/
theorem dir_entry_in_payload_cex :
    ¬ ∀ (fs : Filesystem) (base : FsPath) (ev : Event) (req : SynchronizationRequest)
        (pl : List TarEntry),
        handle fs base ev = .ok (some req) → req.payload = some pl →
        ∀ e ∈ pl, ∀ n, e ≠ TarEntry.dir n := by
  intro h
  exact h fsSubdir wsR evMkdirSub
    { kind := "Create", paths := ["sub"], attributes := none,
      payload := some [TarEntry.dir ⟨[[115, 117, 98]]⟩] }
    [TarEntry.dir ⟨[[115, 117, 98]]⟩] (by decide) rfl
    (TarEntry.dir ⟨[[115, 117, 98]]⟩) (by decide) ⟨[[115, 117, 98]]⟩ rfl

/-- Claim C6 (amended): directories never contribute content to an archive
payload — every content-carrying entry of any archive comes from a regular
file; the initial sync skips directories entirely, so the Override payload
holds no directory entries; and a Remove dispatch carries no payload at
all. (Folder-creation events, by contrast, do place a content-less
directory entry in their payload, per the counterexample.) -/
theorem dir_no_content_contribution :
    (∀ fs prs out, archive fs prs = .ok out →
      ∀ name c, TarEntry.file name c ∈ out →
        ∃ p, (p, name) ∈ prs ∧ fs.lookup p = some (.file c)) ∧
    (∀ fs ws ign req, (fs.entries.map Prod.fst).Nodup →
      (∀ e ∈ fs.entries, ws.segments <+: e.1.segments) →
      upload fs ws ign = .ok req →
      ∀ pl, req.payload = some pl → ∀ e ∈ pl, ∀ n, e ≠ TarEntry.dir n) ∧
    (∀ fs base ev req, EventKinds.fromEventKind ev.kind = .Remove →
      handle fs base ev = .ok (some req) → req.payload = none) := by
  refine ⟨?_, ?_, ?_⟩
  · intro fs prs
    induction prs with
    | nil =>
      intro out h name c hmem
      simp only [archive] at h
      injection h with h
      subst h
      cases hmem
    | cons pr rest ih =>
      intro out h name c hmem
      obtain ⟨p, nm⟩ := pr
      simp only [archive] at h
      split at h
      next c0 hl =>
        cases ha : archive fs rest with
        | error e => rw [ha] at h; simp [Except.map] at h
        | ok out0 =>
          rw [ha] at h
          simp only [Except.map, Except.ok.injEq] at h
          subst h
          rcases List.mem_cons.mp hmem with he | he
          · injection he with hn hc
            subst hn
            subst hc
            exact ⟨p, List.mem_cons_self _ _, hl⟩
          · obtain ⟨p', hp', hl'⟩ := ih out0 ha name c he
            exact ⟨p', List.mem_cons_of_mem _ hp', hl'⟩
      next hl =>
        cases ha : archive fs rest with
        | error e => rw [ha] at h; simp [Except.map] at h
        | ok out0 =>
          rw [ha] at h
          simp only [Except.map, Except.ok.injEq] at h
          subst h
          rcases List.mem_cons.mp hmem with he | he
          · simp at he
          · obtain ⟨p', hp', hl'⟩ := ih out0 ha name c he
            exact ⟨p', List.mem_cons_of_mem _ hp', hl'⟩
      next hl => simp at h
  · intro fs ws ign req hnd hpre h pl hpay e hmem n
    obtain ⟨hc, ha⟩ := collect_archive fs ws hnd (walkEntries ws ign fs)
      (fun q hq => List.mem_of_mem_filter hq)
      (fun q hq => hpre q (List.mem_of_mem_filter hq))
    have hu : upload fs ws ign = .ok
        { kind := EventKinds.Override.toString, paths := [], attributes := none,
          payload := some ((walkEntries ws ign fs).filterMap fun e =>
            match e.2 with
            | .file c => some (TarEntry.file ⟨e.1.segments.drop ws.segments.length⟩ c)
            | .dir => none) } := by
      simp [upload, hc, ha]
    rw [hu] at h
    injection h with h
    subst h
    simp only [Option.some.injEq] at hpay
    subst hpay
    rcases List.mem_filterMap.mp hmem with ⟨q, hq, he⟩
    cases hq2 : q.2 with
    | file c =>
      rw [hq2] at he
      simp only [Option.some.injEq] at he
      subst he
      simp
    | dir =>
      rw [hq2] at he
      simp at he
  · intro fs base ev req hk h
    obtain ⟨prs, strs, hA, hB, hC, hD, hE, hF, hG, hH⟩ := handle_ok_some h
    exact hG hk

/-- Witness for C6 (amended) at the one-file workspace: its Override
payload entry is a file entry, not a directory entry, and a concrete
Remove dispatch has no payload. -/
theorem dir_no_content_contribution_witness :
    TarEntry.file ⟨[[97]]⟩ [104, 105] ≠ TarEntry.dir ⟨[]⟩ ∧
      ({ kind := "Remove", paths := ["a"], attributes := none,
         payload := none } : SynchronizationRequest).payload = none := by
  constructor
  · exact dir_no_content_contribution.2.1 fsSmall wsR (fun _ => false)
      { kind := "Override", paths := [], attributes := none,
        payload := some [TarEntry.file ⟨[[97]]⟩ [104, 105]] }
      (by decide) (by decide) (by decide) [TarEntry.file ⟨[[97]]⟩ [104, 105]] rfl
      (TarEntry.file ⟨[[97]]⟩ [104, 105]) (by decide) ⟨[]⟩
  · exact dir_no_content_contribution.2.2 fsSmall wsR evRemoveA
      { kind := "Remove", paths := ["a"], attributes := none, payload := none }
      (by decide) (by decide)

end AmpCli
